import Mathlib

/-!
Verification of the scanner pipeline driver (src/scanner/engine.cpp).

This file gives a shallow embedding of the parts of engine.cpp that the
claims are about: the keyframe bracket search and byte-range computation
of the load worker, the configure/reset tracking, the batching loop and
the warmup trimming of the evaluator chain worker, the work planner for
the All and SequenceGather sampling modes, the intake gate of run_job,
the master/worker work-distribution protocol, and the device bookkeeping
between the evaluator chain worker and the save worker.

Machine integers (i32, i64, size_t) are modelled as Int or Nat; the
values involved (frame indices, byte offsets, item counts) stay far from
the 32- and 64-bit overflow boundaries in every scenario considered, so
no explicit wraparound is modelled.  C++ code that asserts on failure is
embedded as an Option-returning function.  The worker loops are
expressed as structurally recursive functions over the data they
consume; the loops whose trip counts depend on arithmetic progress use a
fuel argument that provably dominates the number of iterations.
-/

namespace Scanner

/-- Half-open frame interval, mirroring struct Interval of the source
(the field named end in C++ is called stop here because end is a Lean
keyword). -/
structure Interval where
  start : Int
  stop : Int
deriving Repr, DecidableEq

/-- Work item record, mirroring struct VideoWorkItem of engine.cpp. -/
structure VideoWorkItem where
  video_index : Int
  item_id : Int
  next_item_id : Int
  rows_from_start : Int
deriving Repr, DecidableEq

/-- Linear scan over a list, returning the position (counted from the
given base index) of the first element satisfying the predicate.  This
mirrors the two for loops of find_keyframe_indices, which walk
keyframe_positions from a base index upward and stop at the first hit. -/
def scanIdx (p : Int → Bool) : List Int → Nat → Option Nat
  | [], _ => none
  | x :: rest, i => if p x then some i else scanIdx p rest (i + 1)

/-- Embedding of find_keyframe_indices (engine.cpp lines 155-176).  The
first loop starts at index 1 and finds the first keyframe position
strictly greater than start_frame; start_keyframe_index is one less.
The second loop starts at start_keyframe_index and finds the first
keyframe position at least end_frame.  The C++ asserts (no index found,
or end index still 0) are embedded as none. -/
def find_keyframe_indices (start_frame end_frame : Int)
    (keyframe_positions : List Int) : Option (Nat × Nat) :=
  match scanIdx (fun pos => decide (start_frame < pos))
      (keyframe_positions.drop 1) 1 with
  | none => none
  | some i =>
    match scanIdx (fun pos => decide (end_frame ≤ pos))
        (keyframe_positions.drop (i - 1)) (i - 1) with
    | none => none
    | some k2 => if k2 = 0 then none else some (i - 1, k2)

/-- Byte range read by the load worker for one interval (engine.cpp
lines 326-349): the bracket is resolved with find_keyframe_indices, the
read starts at keyframe_byte_offsets[start_keyframe_index] and spans to
keyframe_byte_offsets[end_keyframe_index]. -/
def loadByteRange (s e : Int)
    (keyframe_positions keyframe_byte_offsets : List Int) :
    Option (Int × Int) :=
  match find_keyframe_indices s e keyframe_positions with
  | none => none
  | some (k1, k2) =>
    some (keyframe_byte_offsets.getD k1 0, keyframe_byte_offsets.getD k2 0)

theorem scanIdx_eq_some (p : Int → Bool) :
    ∀ (l : List Int) (i j : Nat), scanIdx p l i = some j →
      ∃ d, j = i + d ∧ d < l.length ∧ p (l.getD d 0) = true ∧
        ∀ d2, d2 < d → p (l.getD d2 0) = false := by
  intro l
  induction l with
  | nil => intro i j h; simp [scanIdx] at h
  | cons x xs ih =>
    intro i j h
    by_cases hx : p x = true
    · refine ⟨0, ?_, by simp, by simpa using hx, by intro d2 h2; omega⟩
      simp [scanIdx, hx] at h
      omega
    · have h' : scanIdx p xs (i + 1) = some j := by
        simpa [scanIdx, hx] using h
      obtain ⟨d, hd1, hd2, hd3, hd4⟩ := ih (i + 1) j h'
      refine ⟨d + 1, by omega, by simpa using Nat.succ_lt_succ hd2,
        by simpa using hd3, ?_⟩
      intro d2 h2
      cases d2 with
      | zero => simp [Bool.eq_false_iff.mpr hx]
      | succ d3 => simpa using hd4 d3 (by omega)

theorem scanIdx_isSome (p : Int → Bool) :
    ∀ (l : List Int) (i : Nat),
      (∃ d, d < l.length ∧ p (l.getD d 0) = true) →
      (scanIdx p l i).isSome := by
  intro l
  induction l with
  | nil => intro i h; obtain ⟨d, hd, _⟩ := h; simp at hd
  | cons x xs ih =>
    intro i h
    by_cases hx : p x = true
    · simp [scanIdx, hx]
    · obtain ⟨d, hd, hpd⟩ := h
      cases d with
      | zero => simp at hpd; simp [hpd] at hx
      | succ d2 =>
        have : (scanIdx p xs (i + 1)).isSome :=
          ih (i + 1) ⟨d2, by simpa using hd, by simpa using hpd⟩
        simpa [scanIdx, hx] using this

theorem getD_drop (l : List Int) : ∀ (m d : Nat),
    (l.drop m).getD d 0 = l.getD (m + d) 0 := by
  induction l with
  | nil => intro m d; simp
  | cons x xs ih =>
    intro m d
    cases m with
    | zero => simp
    | succ m2 =>
      have h2 := ih m2 d
      rw [List.drop_succ_cons, h2, Nat.succ_add, List.getD_cons_succ]

/-- C1: for an interval with 0 ≤ s < e over a strictly increasing
keyframe position list that starts at 0 and (thanks to the trailing
sentinel appended by the load worker) contains a position above s and a
position at least e, find_keyframe_indices returns the pair (k1, k2)
with k1 the largest index whose position is at most s and k2 the
smallest index above k1 whose position is at least e, and the byte
range read for the interval is exactly
[keyframe_byte_offsets[k1], keyframe_byte_offsets[k2]). -/
theorem find_keyframe_indices_bracket
    (s e : Int) (kp off : List Int)
    (hsorted : kp.Pairwise (· < ·))
    (hhead : kp.getD 0 0 = 0) (hs : 0 ≤ s) (hse : s < e)
    (hup : ∃ p ∈ kp, s < p) (hend : ∃ p ∈ kp, e ≤ p) :
    ∃ k1 k2, find_keyframe_indices s e kp = some (k1, k2) ∧
      k1 < kp.length ∧ k2 < kp.length ∧ k1 < k2 ∧
      kp.getD k1 0 ≤ s ∧
      (∀ m, m < kp.length → kp.getD m 0 ≤ s → m ≤ k1) ∧
      e ≤ kp.getD k2 0 ∧
      (∀ m, m < kp.length → k1 < m → e ≤ kp.getD m 0 → k2 ≤ m) ∧
      loadByteRange s e kp off = some (off.getD k1 0, off.getD k2 0) := by
  have h0s : kp.getD 0 0 ≤ s := by rw [hhead]; exact hs
  have hpair : ∀ m1 m2, m1 < m2 → m2 < kp.length →
      kp.getD m1 0 < kp.getD m2 0 := by
    intro m1 m2 h12 h2
    have h1 : m1 < kp.length := lt_trans h12 h2
    rw [List.getD_eq_getElem kp 0 h1, List.getD_eq_getElem kp 0 h2]
    exact List.pairwise_iff_getElem.mp hsorted m1 m2 h1 h2 h12
  -- the first scan succeeds
  obtain ⟨p, hp, hps⟩ := hup
  obtain ⟨n, hn, hpn⟩ := List.mem_iff_getElem.mp hp
  have hngetD : kp.getD n 0 = p := by rw [List.getD_eq_getElem kp 0 hn, hpn]
  have hn1 : 1 ≤ n := by
    by_contra hcon
    have hn0 : n = 0 := by omega
    rw [hn0] at hngetD
    rw [hngetD] at h0s
    omega
  have hscan1 : (scanIdx (fun pos => decide (s < pos)) (kp.drop 1) 1).isSome := by
    apply scanIdx_isSome
    refine ⟨n - 1, ?_, ?_⟩
    · rw [List.length_drop]; omega
    · rw [getD_drop]
      have : 1 + (n - 1) = n := by omega
      rw [this, hngetD]
      simpa using hps
  obtain ⟨i, hi⟩ : ∃ i, scanIdx (fun pos => decide (s < pos)) (kp.drop 1) 1
      = some i := by
    cases h : scanIdx (fun pos => decide (s < pos)) (kp.drop 1) 1 with
    | none => rw [h] at hscan1; simp at hscan1
    | some v => exact ⟨v, rfl⟩
  obtain ⟨d, hjd, hdlen, hpd, hmin⟩ := scanIdx_eq_some _ _ _ _ hi
  have hk1eq : i - 1 = d := by omega
  have hdlen2 : 1 + d < kp.length := by
    rw [List.length_drop] at hdlen; omega
  have hgt : s < kp.getD (1 + d) 0 := by
    rw [getD_drop] at hpd
    simpa using hpd
  have hk1lt : d < kp.length := by omega
  have hk1le : kp.getD d 0 ≤ s := by
    cases d with
    | zero => exact h0s
    | succ d2 =>
      have := hmin d2 (by omega)
      rw [getD_drop] at this
      have h2 : ¬(s < kp.getD (1 + d2) 0) := by simpa using this
      have h3 : 1 + d2 = d2 + 1 := by omega
      rw [h3] at h2
      omega
  have hmax : ∀ m, m < kp.length → kp.getD m 0 ≤ s → m ≤ d := by
    intro m hm hle
    by_contra hcon
    have hdm : d < m := by omega
    have hge : kp.getD (1 + d) 0 ≤ kp.getD m 0 := by
      rcases Nat.lt_or_ge (1 + d) m with h | h
      · exact le_of_lt (hpair _ _ h hm)
      · have : 1 + d = m := by omega
        rw [this]
    omega
  -- the second scan succeeds
  obtain ⟨q, hq, hqe⟩ := hend
  obtain ⟨n2, hn2, hqn⟩ := List.mem_iff_getElem.mp hq
  have hn2getD : kp.getD n2 0 = q := by rw [List.getD_eq_getElem kp 0 hn2, hqn]
  have hn2k1 : d < n2 := by
    by_contra hcon
    have : n2 ≤ d := by omega
    have hle : kp.getD n2 0 ≤ kp.getD d 0 := by
      rcases Nat.lt_or_ge n2 d with h | h
      · exact le_of_lt (hpair _ _ h hk1lt)
      · have : n2 = d := by omega
        rw [this]
    omega
  have hscan2 : (scanIdx (fun pos => decide (e ≤ pos)) (kp.drop d) d).isSome := by
    apply scanIdx_isSome
    refine ⟨n2 - d, ?_, ?_⟩
    · rw [List.length_drop]; omega
    · rw [getD_drop]
      have : d + (n2 - d) = n2 := by omega
      rw [this, hn2getD]
      simpa using hqe
  obtain ⟨k2, hk2⟩ : ∃ k2, scanIdx (fun pos => decide (e ≤ pos)) (kp.drop d) d
      = some k2 := by
    cases h : scanIdx (fun pos => decide (e ≤ pos)) (kp.drop d) d with
    | none => rw [h] at hscan2; simp at hscan2
    | some v => exact ⟨v, rfl⟩
  obtain ⟨d2, hk2d, hd2len, hpd2, hmin2⟩ := scanIdx_eq_some _ _ _ _ hk2
  have hk2lt : k2 < kp.length := by
    rw [List.length_drop] at hd2len; omega
  have hek2 : e ≤ kp.getD k2 0 := by
    rw [getD_drop] at hpd2
    rw [hk2d]
    simpa using hpd2
  have hd2pos : 0 < d2 := by
    by_contra hcon
    have hz : d2 = 0 := by omega
    rw [hz, Nat.add_zero] at hk2d
    rw [hk2d] at hek2
    omega
  have hk1k2 : d < k2 := by omega
  have hmin2' : ∀ m, m < kp.length → d < m → e ≤ kp.getD m 0 → k2 ≤ m := by
    intro m hm hdm hem
    by_contra hcon
    have hmk2 : m < k2 := by omega
    have := hmin2 (m - d) (by omega)
    rw [getD_drop] at this
    have heq : d + (m - d) = m := by omega
    rw [heq] at this
    have : ¬(e ≤ kp.getD m 0) := by simpa using this
    exact this hem
  refine ⟨d, k2, ?_, hk1lt, hk2lt, hk1k2, hk1le, hmax, hek2, hmin2', ?_⟩
  · unfold find_keyframe_indices
    rw [hi]
    simp only [hk1eq]
    rw [hk2]
    have : ¬(k2 = 0) := by omega
    simp [this]
  · unfold loadByteRange
    unfold find_keyframe_indices
    rw [hi]
    simp only [hk1eq]
    rw [hk2]
    have : ¬(k2 = 0) := by omega
    simp [this]

/-- Witness for C1: keyframe positions [0, 10, 20] (the last entry being
the sentinel), byte offsets [0, 100, 200], interval [5, 15). -/
theorem find_keyframe_indices_bracket_witness :
    ∃ k1 k2,
      find_keyframe_indices 5 15 ([0, 10, 20] : List Int) = some (k1, k2) ∧
      k1 < ([0, 10, 20] : List Int).length ∧
      k2 < ([0, 10, 20] : List Int).length ∧ k1 < k2 ∧
      ([0, 10, 20] : List Int).getD k1 0 ≤ 5 ∧
      (∀ m, m < ([0, 10, 20] : List Int).length →
        ([0, 10, 20] : List Int).getD m 0 ≤ 5 → m ≤ k1) ∧
      15 ≤ ([0, 10, 20] : List Int).getD k2 0 ∧
      (∀ m, m < ([0, 10, 20] : List Int).length → k1 < m →
        15 ≤ ([0, 10, 20] : List Int).getD m 0 → k2 ≤ m) ∧
      loadByteRange 5 15 ([0, 10, 20] : List Int) ([0, 100, 200] : List Int) =
        some (([0, 100, 200] : List Int).getD k1 0,
          ([0, 100, 200] : List Int).getD k2 0) :=
  find_keyframe_indices_bracket 5 15 ([0, 10, 20] : List Int)
    ([0, 100, 200] : List Int)
    (by decide) (by decide) (by decide) (by decide) (by decide) (by decide)

/-- Tracked state of one evaluator chain worker: the pair
(last_video_index, last_next_item_id) of evaluate_thread, initialised to
(-1, -1) (engine.cpp lines 418-419). -/
structure EvalState where
  last_video_index : Int
  last_next_item_id : Int
deriving Repr, DecidableEq

/-- Per-entry configure/reset decision of evaluate_thread (engine.cpp
lines 442-456): needs_configure and needs_reset are computed from the
tracked pair, and the tracked pair is then updated to the current
entry's (video_index, next_item_id).  The result is
(needs_configure, needs_reset, updated state). -/
def stepConfigureReset (st : EvalState) (w : VideoWorkItem) :
    Bool × Bool × EvalState :=
  let needs_configure := !(w.video_index == st.last_video_index)
  let needs_reset := !(w.video_index == st.last_video_index &&
    w.item_id == st.last_next_item_id)
  (needs_configure, needs_reset, ⟨w.video_index, w.next_item_id⟩)

/-- C4: on each entry the evaluator chain worker configures every
evaluator iff the entry's video index differs from the previously
tracked video index, resets every evaluator iff configure was needed or
the entry's item_id differs from the previously tracked next_item_id,
and afterwards records the entry's (video_index, next_item_id) as the
tracked pair. -/
theorem evaluate_configure_reset_spec (st : EvalState) (w : VideoWorkItem) :
    ((stepConfigureReset st w).1 = true ↔
      w.video_index ≠ st.last_video_index) ∧
    ((stepConfigureReset st w).2.1 = true ↔
      ((stepConfigureReset st w).1 = true ∨
        w.item_id ≠ st.last_next_item_id)) ∧
    (stepConfigureReset st w).2.2 =
      EvalState.mk w.video_index w.next_item_id := by
  refine ⟨?_, ?_, rfl⟩
  · simp [stepConfigureReset]
  · by_cases h1 : w.video_index = st.last_video_index <;>
      by_cases h2 : w.item_id = st.last_next_item_id <;>
      simp [stepConfigureReset, h1, h2]

/-- Warmup row count released for one batch, exactly as computed at
engine.cpp lines 586-594: nonzero only in the last evaluator group on an
entry that needed a reset, in which case it is
min(batch_size, max(0, min(warmup_count, rows_from_start) -
current_input)). -/
def warmup_frames (last_evaluator_group needs_reset : Bool)
    (warmup_count rows_from_start current_input batch_size : Int) : Int :=
  if last_evaluator_group && needs_reset then
    min batch_size (max 0 (min warmup_count rows_from_start - current_input))
  else 0

/-- Rows of one output column released as warmup (engine.cpp lines
598-602: the leading warmup_frames rows are deleted). -/
def releaseWarmupRows (wf : Int) (col : List Int) : List Int :=
  col.take wf.toNat

/-- Rows of one output column kept after warmup trimming (engine.cpp
lines 617-623: the rows from index warmup_frames on are appended to the
accumulated output). -/
def keepAfterWarmup (wf : Int) (col : List Int) : List Int :=
  col.drop wf.toNat

/-- C2: warmup rows are discarded only in the last factory group and
only for an entry that required a reset; in that case each batch
releases exactly min(batch_size, max(0, min(warmup_count,
rows_from_start) - current_input)) leading output rows of a column and
keeps the remainder, and in all other cases zero rows are released and
the whole column is kept. -/
theorem warmup_trim_spec (lg nr : Bool) (wc rfs ci bs : Int)
    (col : List Int) (hbs : 0 ≤ bs) (hcol : col.length = bs.toNat) :
    (¬(lg = true ∧ nr = true) →
      warmup_frames lg nr wc rfs ci bs = 0 ∧
      releaseWarmupRows (warmup_frames lg nr wc rfs ci bs) col = [] ∧
      keepAfterWarmup (warmup_frames lg nr wc rfs ci bs) col = col) ∧
    (lg = true ∧ nr = true →
      warmup_frames lg nr wc rfs ci bs =
        min bs (max 0 (min wc rfs - ci)) ∧
      (releaseWarmupRows (warmup_frames lg nr wc rfs ci bs) col).length =
        (warmup_frames lg nr wc rfs ci bs).toNat ∧
      releaseWarmupRows (warmup_frames lg nr wc rfs ci bs) col ++
        keepAfterWarmup (warmup_frames lg nr wc rfs ci bs) col = col) := by
  constructor
  · intro h
    have hfalse : (lg && nr) = false := by
      cases lg <;> cases nr <;> simp_all
    simp [warmup_frames, hfalse, releaseWarmupRows, keepAfterWarmup]
  · intro h
    have htrue : (lg && nr) = true := by
      cases lg <;> cases nr <;> simp_all
    have hwf : warmup_frames lg nr wc rfs ci bs =
        min bs (max 0 (min wc rfs - ci)) := by
      simp [warmup_frames, htrue]
    refine ⟨hwf, ?_, ?_⟩
    · rw [hwf, releaseWarmupRows, List.length_take, hcol]
      have : (min bs (max 0 (min wc rfs - ci))).toNat ≤ bs.toNat := by omega
      omega
    · rw [releaseWarmupRows, keepAfterWarmup, List.take_append_drop]

/-- Witness for C2: last group, reset needed, warmup_count 8,
rows_from_start 16, current_input 0, batch of 16 rows. -/
theorem warmup_trim_spec_witness :
    (¬(true = true ∧ true = true) →
      warmup_frames true true 8 16 0 16 = 0 ∧
      releaseWarmupRows (warmup_frames true true 8 16 0 16)
        (List.replicate 16 0) = [] ∧
      keepAfterWarmup (warmup_frames true true 8 16 0 16)
        (List.replicate 16 0) = List.replicate 16 0) ∧
    (true = true ∧ true = true →
      warmup_frames true true 8 16 0 16 = min 16 (max 0 (min 8 16 - 0)) ∧
      (releaseWarmupRows (warmup_frames true true 8 16 0 16)
        (List.replicate 16 0)).length =
        (warmup_frames true true 8 16 0 16).toNat ∧
      releaseWarmupRows (warmup_frames true true 8 16 0 16)
        (List.replicate 16 0) ++
        keepAfterWarmup (warmup_frames true true 8 16 0 16)
        (List.replicate 16 0) = List.replicate 16 0) :=
  warmup_trim_spec true true 8 16 0 16 (List.replicate 16 0)
    (by decide) (by decide)

/-- Backlog threshold PUS_PER_NODE * TASKS_IN_QUEUE_PER_PU used by the
intake loops of run_job (engine.cpp lines 1142 and 1183). -/
def intakeThreshold (pus_per_node tasks_in_queue_per_pu : Int) : Int :=
  pus_per_node * tasks_in_queue_per_pu

/-- One step of the intake bookkeeping of run_job: the driver accepts a
work item into the load queue only under the guard
accepted_items - retired_items < threshold (engine.cpp lines 1141-1146
on the master, 1181-1198 on a worker node), while a save worker may
retire an item at any time (engine.cpp line 738). -/
inductive SchedStep (thr : Int) : Int × Int → Int × Int → Prop
  | accept {a r : Int} : a - r < thr → SchedStep thr (a, r) (a + 1, r)
  | retire {a r : Int} : SchedStep thr (a, r) (a, r + 1)

/-- States of the intake bookkeeping reachable from the initial state
accepted_items = 0, retired_items = 0 (engine.cpp lines 991 and 996). -/
inductive SchedReachable (thr : Int) : Int × Int → Prop
  | init : SchedReachable thr (0, 0)
  | step {s1 s2 : Int × Int} : SchedReachable thr s1 → SchedStep thr s1 s2 →
      SchedReachable thr s2

/-- C7: work items are accepted only under the gate
accepted_items - retired_items < PUS_PER_NODE * TASKS_IN_QUEUE_PER_PU,
so in every reachable state of the intake loop
accepted_items - retired_items never exceeds that product. -/
theorem intake_gate_bound (pus tasks a r : Int)
    (hthr : 0 ≤ intakeThreshold pus tasks)
    (hreach : SchedReachable (intakeThreshold pus tasks) (a, r)) :
    a - r ≤ intakeThreshold pus tasks := by
  have key : ∀ s : Int × Int, SchedReachable (intakeThreshold pus tasks) s →
      s.1 - s.2 ≤ intakeThreshold pus tasks := by
    intro s h
    induction h with
    | init => simpa using hthr
    | step h1 h2 ih =>
      cases h2 with
      | accept hg => simp only at ih ⊢; omega
      | retire => simp only at ih ⊢; omega
  exact key (a, r) hreach

/-- Witness for C7: one PU, two queue slots per PU, after a single
accepted item the backlog 1 - 0 is within the threshold 2. -/
theorem intake_gate_bound_witness :
    (1 : Int) - 0 ≤ intakeThreshold 1 2 :=
  intake_gate_bound 1 2 1 0 (by decide)
    (SchedReachable.step SchedReachable.init (SchedStep.accept (by decide)))

/-- Batch boundaries produced by the batched pass of evaluate_thread for
an entry that is not a video-decode item (engine.cpp lines 473-477 and
625): current_input starts at 0, each iteration uses
batch_size = min(total_inputs, WORK_ITEM_SIZE) and advances
current_input by batch_size while current_input < total_inputs.  The
fuel argument dominates the iteration count. -/
def batchSlicesGo (total_inputs work_item_size : Nat) :
    Nat → Nat → List (Nat × Nat)
  | 0, _ => []
  | fuel + 1, current_input =>
    if current_input < total_inputs then
      (current_input, min total_inputs work_item_size) ::
        batchSlicesGo total_inputs work_item_size fuel
          (current_input + min total_inputs work_item_size)
    else []

/-- List of (current_input, batch_size) pairs for one entry of
evaluate_thread's batched pass. -/
def batchSlices (total_inputs work_item_size : Nat) : List (Nat × Nat) :=
  batchSlicesGo total_inputs work_item_size total_inputs 0

/-- C9: with 24 input rows per column (a 16-row chunk plus 8 forwarded
warmup rows) and WORK_ITEM_SIZE = 16, the batched pass iterates at
current_input = 0 and 16 with batch_size = min(24, 16) = 16 in both
iterations, so the second slice [16, 32) runs past the 24-element
buffer and size vectors: the code computes batch_size without
subtracting current_input. -/
theorem batch_slice_overrun :
    batchSlices 24 16 = [(0, 16), (16, 16)] ∧
    ∃ p ∈ batchSlices 24 16, 24 < p.1 + p.2 := by
  decide

/-- Device kinds of the memory allocator interface (DeviceType of the
source; only CPU and GPU occur). -/
inductive DeviceType
  | CPU
  | GPU
deriving Repr, DecidableEq

/-- Abstract buffer carrying the (device_type, device_id) pair it was
allocated with; new_buffer and delete_buffer are parameterised by
exactly this pair. -/
structure Buf where
  device_type : DeviceType
  device_id : Int
deriving Repr, DecidableEq

/-- Migration of one kept output row to CPU memory (engine.cpp lines
607-614): a new buffer is allocated with new_buffer(DeviceType::CPU, 0),
the contents are copied over, and the source buffer is released. -/
def migrateToCPU (_src : Buf) : Buf :=
  { device_type := DeviceType.CPU, device_id := 0 }

/-- Handling of one output column at the tail of the batch loop
(engine.cpp lines 595-624): the first warmup_frames rows are released,
and the kept rows are migrated to CPU memory when the output buffer
type is not already DeviceType::CPU.  Returns (released rows, kept
rows). -/
def normalizeBatchColumn (output_buffer_type : DeviceType)
    (wf : Nat) (col : List Buf) : List Buf × List Buf :=
  (col.take wf,
    if output_buffer_type ≠ DeviceType.CPU then
      (col.drop wf).map migrateToCPU
    else col.drop wf)

/-- Device tag stored in every entry an evaluator chain worker pushes
downstream (engine.cpp lines 462-463): buffer_type = DeviceType::CPU
and buffer_device_id = 0, unconditionally. -/
def outputEntryDevice : DeviceType × Int := (DeviceType.CPU, 0)

/-- Device pair the save worker passes to delete_buffer when releasing
a row (engine.cpp lines 722-726): DeviceType::CPU together with the
entry's buffer_device_id. -/
def saveReleaseDevice (entry_device : DeviceType × Int) : DeviceType × Int :=
  (DeviceType.CPU, entry_device.2)

/-- C10: every entry pushed downstream by an evaluator chain worker is
tagged buffer_type = CPU and buffer_device_id = 0, and every kept row
of a batch column whose rows live on the evaluator's output device is
in CPU memory after normalization, so the save worker's unconditional
delete_buffer(DeviceType::CPU, ...) release is applied only to
CPU-allocated buffers. -/
theorem eval_output_cpu_normalized (outT : DeviceType) (wf : Nat)
    (col : List Buf) (hcol : ∀ b ∈ col, b.device_type = outT) :
    outputEntryDevice = (DeviceType.CPU, 0) ∧
    (∀ b ∈ (normalizeBatchColumn outT wf col).2,
      b.device_type = DeviceType.CPU) ∧
    (saveReleaseDevice outputEntryDevice).1 = DeviceType.CPU := by
  refine ⟨rfl, ?_, rfl⟩
  intro b hb
  simp only [normalizeBatchColumn] at hb
  by_cases h : outT = DeviceType.CPU
  · rw [if_neg (by simp [h])] at hb
    rw [hcol b (List.drop_subset wf col hb), h]
  · rw [if_pos (by simp [h])] at hb
    obtain ⟨a, _, ha⟩ := List.mem_map.mp hb
    rw [← ha]
    rfl

/-- Witness for C10: a column of two GPU buffers on device 3 with one
warmup row. -/
theorem eval_output_cpu_normalized_witness :
    outputEntryDevice = (DeviceType.CPU, 0) ∧
    (∀ b ∈ (normalizeBatchColumn DeviceType.GPU 1
      [Buf.mk DeviceType.GPU 3, Buf.mk DeviceType.GPU 3]).2,
      b.device_type = DeviceType.CPU) ∧
    (saveReleaseDevice outputEntryDevice).1 = DeviceType.CPU :=
  eval_output_cpu_normalized DeviceType.GPU 1
    [Buf.mk DeviceType.GPU 3, Buf.mk DeviceType.GPU 3] (by decide)

/-- Reply of the master's distribution loop to one work request while
the plan is not exhausted (engine.cpp lines 1157-1165): the next
planned work-item index is issued and the cursor advances; once the
cursor is past the end of the plan the reply is -1 and the cursor
stays. -/
def masterIssue (num_work_items next_work_item_to_allocate : Nat) :
    Int × Nat :=
  if next_work_item_to_allocate < num_work_items then
    ((next_work_item_to_allocate : Int), next_work_item_to_allocate + 1)
  else (-1, next_work_item_to_allocate)

/-- Drain loop of the master after the plan is exhausted (engine.cpp
lines 1167-1177): starting from workers_done = 1, it answers -1 to one
request and increments workers_done until workers_done reaches
num_nodes.  Returns the list of replies sent before the loop exits. -/
def masterDrainLoop (num_nodes : Nat) : Nat → Nat → List Int
  | 0, _ => []
  | fuel + 1, workers_done =>
    if workers_done < num_nodes then
      (-1) :: masterDrainLoop num_nodes fuel (workers_done + 1)
    else []

/-- Replies sent by the master's drain loop, entered with
workers_done = 1 (the master itself counts as done). -/
def masterDrainReplies (num_nodes : Nat) : List Int :=
  masterDrainLoop num_nodes num_nodes 1

/-- Worker node request loop (engine.cpp lines 1180-1202) applied to
the sequence of replies it receives: a reply of -1 breaks the loop and
the node proceeds to drain and exit, any other reply is enqueued as a
load entry.  Returns the enqueued indices and whether the loop exited
through the -1 branch. -/
def workerLoop : List Int → List Int × Bool
  | [] => ([], false)
  | reply :: rest =>
    if reply = -1 then ([], true)
    else ((workerLoop rest).1.cons reply, (workerLoop rest).2)

theorem masterDrainLoop_eq_replicate (num_nodes : Nat) :
    ∀ (fuel workers_done : Nat),
      masterDrainLoop num_nodes fuel workers_done =
        List.replicate (min fuel (num_nodes - workers_done)) (-1) := by
  intro fuel
  induction fuel with
  | zero => intro wd; simp [masterDrainLoop]
  | succ f ih =>
    intro wd
    by_cases h : wd < num_nodes
    · have h1 : min (f + 1) (num_nodes - wd) =
          min f (num_nodes - (wd + 1)) + 1 := by omega
      rw [masterDrainLoop, if_pos h, ih (wd + 1), h1, List.replicate_succ]
    · have h1 : min (f + 1) (num_nodes - wd) = 0 := by omega
      rw [masterDrainLoop, if_neg h, h1, List.replicate_zero]

theorem workerLoop_stops : ∀ (rs extra : List Int), (-1 : Int) ∉ rs →
    workerLoop (rs ++ (-1) :: extra) = (rs, true) := by
  intro rs
  induction rs with
  | nil => intro extra h; simp [workerLoop]
  | cons r rest ih =>
    intro extra h
    have hr : ¬(r = -1) := by
      intro hcon
      exact h (by rw [hcon]; exact List.mem_cons_self _ _)
    have hrest : (-1 : Int) ∉ rest := fun hc => h (List.mem_cons_of_mem _ hc)
    rw [List.cons_append, workerLoop, if_neg hr, ih extra hrest]

/-- C8: once the master has issued every planned index it replies -1 to
each subsequent request and keeps the cursor in place, while a request
arriving before exhaustion receives the next planned index; the drain
loop sends exactly num_nodes - 1 replies of -1, one per peer worker,
before exiting; and a worker node enqueues every non-(-1) reply it
receives in order and stops requesting as soon as it receives -1. -/
theorem master_worker_distribution (num_nodes num_work_items next : Nat)
    (rs extra : List Int) (hrs : (-1 : Int) ∉ rs) :
    (num_work_items ≤ next →
      (masterIssue num_work_items next).1 = -1 ∧
      (masterIssue num_work_items next).2 = next) ∧
    (next < num_work_items →
      masterIssue num_work_items next = ((next : Int), next + 1)) ∧
    masterDrainReplies num_nodes = List.replicate (num_nodes - 1) (-1) ∧
    workerLoop (rs ++ (-1) :: extra) = (rs, true) := by
  refine ⟨?_, ?_, ?_, workerLoop_stops rs extra hrs⟩
  · intro h
    have h2 : ¬(next < num_work_items) := by omega
    rw [masterIssue, if_neg h2]
    exact ⟨rfl, rfl⟩
  · intro h
    rw [masterIssue, if_pos h]
  · rw [masterDrainReplies, masterDrainLoop_eq_replicate]
    have h1 : min num_nodes (num_nodes - 1) = num_nodes - 1 := by omega
    rw [h1]

/-- Witness for C8: three nodes, a four-item plan already exhausted,
and a worker that received indices 0, 1, 2 before the -1. -/
theorem master_worker_distribution_witness :
    (4 ≤ 4 →
      (masterIssue 4 4).1 = -1 ∧ (masterIssue 4 4).2 = 4) ∧
    (4 < 4 → masterIssue 4 4 = ((4 : Int), 5)) ∧
    masterDrainReplies 3 = List.replicate 2 (-1) ∧
    workerLoop ([0, 1, 2] ++ (-1) :: [-1]) = ([0, 1, 2], true) :=
  master_worker_distribution 3 4 4 [0, 1, 2] [-1] (by decide)

/-- Chunking loop shared by the All arm (engine.cpp lines 848-867) and
the per-interval inner loop of the SequenceGather arm (lines 955-977)
of the work planner: while rem frames remain, allocate a chunk of
min(work_item_size, rem) frames.  The produced work item carries
item_id = t (the running output-row counter), next_item_id = t + chunk,
rows_from_start = alloc (the frames already allocated in the current
range), and the matching load entry carries the frame interval
[iv_start + alloc, iv_start + alloc + chunk).  The fuel argument
dominates the iteration count because each iteration consumes at least
one frame. -/
def planChunksGo (work_item_size : Nat) (vi : Int) (iv_start : Nat) :
    Nat → Nat → Nat → Nat → List (VideoWorkItem × Interval)
  | 0, _, _, _ => []
  | fuel + 1, t, alloc, rem =>
    if 0 < rem ∧ 0 < work_item_size then
      (VideoWorkItem.mk vi ((t : Nat) : Int)
        ((t + min work_item_size rem : Nat) : Int)
        ((alloc : Nat) : Int),
       Interval.mk ((iv_start + alloc : Nat) : Int)
        ((iv_start + alloc + min work_item_size rem : Nat) : Int)) ::
      planChunksGo work_item_size vi iv_start fuel
        (t + min work_item_size rem) (alloc + min work_item_size rem)
        (rem - min work_item_size rem)
    else []

theorem planChunksGo_length_iff (W : Nat) (vi : Int) (ivs : Nat)
    (hW : 0 < W) :
    ∀ (fuel t alloc rem k : Nat), rem ≤ fuel →
      (k < (planChunksGo W vi ivs fuel t alloc rem).length ↔
        k * W < rem) := by
  intro fuel
  induction fuel with
  | zero =>
    intro t alloc rem k hrem
    have h0 : rem = 0 := by omega
    rw [h0]
    simp [planChunksGo]
  | succ f ih =>
    intro t alloc rem k hrem
    by_cases hg : 0 < rem
    · rw [planChunksGo, if_pos ⟨hg, hW⟩]
      cases k with
      | zero =>
        simp only [List.length_cons, Nat.zero_mul]
        constructor
        · intro _; exact hg
        · intro _; omega
      | succ k2 =>
        have hc1 : 1 ≤ min W rem := by omega
        have hrem2 : rem - min W rem ≤ f := by omega
        rw [List.length_cons, Nat.succ_lt_succ_iff, ih _ _ _ k2 hrem2]
        rcases Nat.le_total W rem with hle | hle
        · rw [Nat.min_eq_left hle]
          constructor
          · intro h; calc (k2 + 1) * W = k2 * W + W := by ring
              _ < rem := by omega
          · intro h
            have : k2 * W + W < rem := by
              calc k2 * W + W = (k2 + 1) * W := by ring
                _ < rem := h
            omega
        · rw [Nat.min_eq_right hle]
          constructor
          · intro h; omega
          · intro h
            have : W ≤ (k2 + 1) * W := by
              calc W = 1 * W := by ring
                _ ≤ (k2 + 1) * W := Nat.mul_le_mul_right W (by omega)
            omega
    · rw [planChunksGo, if_neg (by omega)]
      simp only [List.length_nil]
      constructor
      · intro h; omega
      · intro h; omega

theorem planChunksGo_wzero (vi : Int) (ivs : Nat) :
    ∀ (fuel t alloc rem : Nat),
      planChunksGo 0 vi ivs fuel t alloc rem = [] := by
  intro fuel t alloc rem
  cases fuel with
  | zero => rfl
  | succ f => rw [planChunksGo, if_neg (by omega)]

/-- Default entry used with List.getD when stating positional facts
about planner output. -/
def dummyPlanEntry : VideoWorkItem × Interval :=
  (VideoWorkItem.mk 0 0 0 0, Interval.mk 0 0)

theorem planChunksGo_getD (W : Nat) (vi : Int) (ivs : Nat) (hW : 0 < W) :
    ∀ (fuel t alloc rem k : Nat), rem ≤ fuel → k * W < rem →
      (planChunksGo W vi ivs fuel t alloc rem).getD k dummyPlanEntry =
        (VideoWorkItem.mk vi ((t + k * W : Nat) : Int)
          ((t + k * W + min W (rem - k * W) : Nat) : Int)
          ((alloc + k * W : Nat) : Int),
         Interval.mk ((ivs + alloc + k * W : Nat) : Int)
          ((ivs + alloc + k * W + min W (rem - k * W) : Nat) : Int)) := by
  intro fuel
  induction fuel with
  | zero =>
    intro t alloc rem k hrem hkW
    omega
  | succ f ih =>
    intro t alloc rem k hrem hkW
    have hg : 0 < rem ∧ 0 < W := ⟨by omega, hW⟩
    rw [planChunksGo, if_pos hg]
    cases k with
    | zero => simp
    | succ k2 =>
      have hmul : (k2 + 1) * W = k2 * W + W := by ring
      have hcW : min W rem = W := by
        rcases Nat.le_total W rem with hle | hle
        · exact Nat.min_eq_left hle
        · omega
      rw [List.getD_cons_succ, hcW]
      have hrem2 : rem - W ≤ f := by omega
      have hkW2 : k2 * W < rem - W := by omega
      rw [ih (t + W) (alloc + W) (rem - W) k2 hrem2 hkW2]
      simp only [Prod.mk.injEq, VideoWorkItem.mk.injEq, Interval.mk.injEq,
        Nat.cast_inj, true_and]
      have e2 : rem - W - k2 * W = rem - (k2 + 1) * W := by omega
      refine ⟨⟨by omega, by omega⟩, by omega, by omega⟩

/-- Work items and load intervals the planner produces for one video of
the given frame count under All sampling (engine.cpp lines 845-869):
the running counters item_id, rows_from_start and the load interval
base all start at 0. -/
def planAllVideo (W frames : Nat) (vi : Int) :
    List (VideoWorkItem × Interval) :=
  planChunksGo W vi 0 frames 0 0 frames

/-- C6: under All sampling, item k of a video is the chunk
[k*W, k*W + chunk) with chunk = min(W, frames - k*W): its item_id is
k*W, its next_item_id is item_id + chunk, its rows_from_start equals
item_id, and its load entry carries exactly the half-open frame
interval [item_id, next_item_id). -/
theorem planAll_item_spec (W frames : Nat) (vi : Int) (k : Nat)
    (hk : k < (planAllVideo W frames vi).length) :
    (planAllVideo W frames vi).getD k dummyPlanEntry =
      (VideoWorkItem.mk vi ((k * W : Nat) : Int)
        ((k * W + min W (frames - k * W) : Nat) : Int)
        ((k * W : Nat) : Int),
       Interval.mk ((k * W : Nat) : Int)
        ((k * W + min W (frames - k * W) : Nat) : Int)) := by
  have hW : 0 < W := by
    by_contra hcon
    have hW0 : W = 0 := by omega
    rw [planAllVideo, hW0, planChunksGo_wzero] at hk
    simp at hk
  have hkW : k * W < frames :=
    (planChunksGo_length_iff W vi 0 hW frames 0 0 frames k
      (le_refl frames)).mp hk
  have h := planChunksGo_getD W vi 0 hW frames 0 0 frames k
    (le_refl frames) hkW
  rw [planAllVideo]
  rw [h]
  simp

/-- Witness for C6: W = 16 over a 40-frame video; item 2 is the final
8-frame chunk [32, 40). -/
theorem planAll_item_spec_witness :
    2 < (planAllVideo 16 40 0).length ∧
    (planAllVideo 16 40 0).getD 2 dummyPlanEntry =
      (VideoWorkItem.mk 0 ((2 * 16 : Nat) : Int)
        ((2 * 16 + min 16 (40 - 2 * 16) : Nat) : Int)
        ((2 * 16 : Nat) : Int),
       Interval.mk ((2 * 16 : Nat) : Int)
        ((2 * 16 + min 16 (40 - 2 * 16) : Nat) : Int)) :=
  ⟨by decide, planAll_item_spec 16 40 0 2 (by decide)⟩

/-- Frame rows of the half-open range [a, b). -/
def rowsRange (a b : Nat) : List Nat :=
  List.range' a (b - a)

/-- Modelled from the spec: the DecoderEvaluator implementation is not
part of this repository (the load worker only fills in its
decode-argument record), so its output row sequence is modelled from
the spec's warmup description: decoding an interval after a reset
re-decodes min(warmup_count, interval.start) warmup rows immediately
preceding the interval (it cannot reach before frame 0), and decoding
without a reset emits exactly the rows of the interval.  This matches
the engine's own accounting, which trims exactly
min(warmup_count, rows_from_start) leading rows after a reset. -/
def decoderRows (warmup_count : Nat) (reset : Bool) (iv : Interval) :
    List Nat :=
  if reset then
    rowsRange (iv.start.toNat - min warmup_count iv.start.toNat) iv.stop.toNat
  else rowsRange iv.start.toNat iv.stop.toNat

/-- Initial tracked state of an evaluator chain worker:
last_video_index = -1, last_next_item_id = -1 (engine.cpp lines
418-419). -/
def initialEvalState : EvalState :=
  EvalState.mk (-1) (-1)

/-- One evaluator chain worker owning a single factory group (which is
then also the last group) processing planned (work item, load interval)
entries in order: per entry the configure/reset decision is made by
stepConfigureReset, the decoder turns the interval into its row
sequence (one batch, because the decode fan-out turns the single
encoded blob into all rows with current_input = 0), and the last-group
warmup trim releases the first warmup_frames rows of the batch
(engine.cpp lines 584-624).  Returns (saved rows, released rows),
accumulated in order. -/
def runChain (warmup_count : Nat) :
    EvalState → List (VideoWorkItem × Interval) → List Nat × List Nat
  | _, [] => ([], [])
  | st, (w, iv) :: rest =>
    let r := stepConfigureReset st w
    let rows := decoderRows warmup_count r.2.1 iv
    let wf := warmup_frames true r.2.1 (warmup_count : Int)
      w.rows_from_start 0 ((rows.length : Nat) : Int)
    let out := runChain warmup_count r.2.2 rest
    (rows.drop wf.toNat ++ out.1, rows.take wf.toNat ++ out.2)

/-- C3, counterexample: with warmup_count = 8, All sampling over a
single 40-frame video and WORK_ITEM_SIZE = 16, the saved outputs are
not rows 8..39, row 0 is saved, and no row is released: the first work
item has rows_from_start = 0, so its trim count
min(batch_size, max(0, min(8, 0) - 0)) is 0, and the remaining items
follow their predecessor (item_id = previous next_item_id, same video)
and need no reset. -/
theorem warmup_scenario_counterexample :
    (runChain 8 initialEvalState (planAllVideo 16 40 0)).1 ≠
      rowsRange 8 40 ∧
    0 ∈ (runChain 8 initialEvalState (planAllVideo 16 40 0)).1 ∧
    (runChain 8 initialEvalState (planAllVideo 16 40 0)).2 = [] := by
  decide

/-- C3, amended: with warmup_count = 8, All sampling over a single
40-frame video and WORK_ITEM_SIZE = 16, processed in order by one
evaluator chain, the saved outputs contain exactly rows 0..39 and the
last factory group releases no rows at all, because the first work
item's rows_from_start is 0 (so min(warmup_count, rows_from_start) = 0)
and the later work items need no reset. -/
theorem warmup_scenario_amended :
    (runChain 8 initialEvalState (planAllVideo 16 40 0)).1 =
      rowsRange 0 40 ∧
    (runChain 8 initialEvalState (planAllVideo 16 40 0)).2 = [] := by
  decide

/-- Patch applied to the last work item produced for a SequenceGather
interval (engine.cpp line 979): work_items.back().next_item_id = -1,
forcing a decoder reset on the following item. -/
def markReset (p : VideoWorkItem × Interval) : VideoWorkItem × Interval :=
  (VideoWorkItem.mk p.1.video_index p.1.item_id (-1) p.1.rows_from_start,
   p.2)

/-- Application of the back-patch to the item list of one interval: the
C++ mutates the last element of the global work_items vector right
after the interval's chunk loop, which is the last element produced for
that interval. -/
def patchLastReset : List (VideoWorkItem × Interval) →
    List (VideoWorkItem × Interval)
  | [] => []
  | [p] => [markReset p]
  | p :: q :: rest => p :: patchLastReset (q :: rest)

/-- SequenceGather planning for one video's interval list (engine.cpp
lines 935-982): each interval is chunked exactly like All sampling; the
running counter t models total_frames_in_sequences, advancing across
intervals so that item_id counts output rows across the whole per-video
sequence, while rows_from_start restarts at 0 inside each interval;
after each interval's loop the last produced work item is patched with
next_item_id = -1. -/
def planSeqGather (W : Nat) (vi : Int) :
    Nat → List Interval → List (VideoWorkItem × Interval)
  | _, [] => []
  | t, iv :: rest =>
    patchLastReset (planChunksGo W vi iv.start.toNat
      (iv.stop - iv.start).toNat t 0 (iv.stop - iv.start).toNat) ++
    planSeqGather W vi (t + (iv.stop - iv.start).toNat) rest

theorem patchLastReset_length :
    ∀ l : List (VideoWorkItem × Interval),
      (patchLastReset l).length = l.length := by
  intro l
  induction l with
  | nil => rfl
  | cons p rest ih =>
    cases rest with
    | nil => rfl
    | cons q rest2 =>
      have hstep : patchLastReset (p :: q :: rest2) =
          p :: patchLastReset (q :: rest2) := rfl
      rw [hstep, List.length_cons, ih, List.length_cons]
      rfl

theorem patchLastReset_getD :
    ∀ (l : List (VideoWorkItem × Interval)) (k : Nat),
      (patchLastReset l).getD k dummyPlanEntry =
        if k + 1 = l.length then markReset (l.getD k dummyPlanEntry)
        else l.getD k dummyPlanEntry := by
  intro l
  induction l with
  | nil => intro k; simp [patchLastReset]
  | cons p rest ih =>
    cases rest with
    | nil =>
      intro k
      cases k with
      | zero => simp [patchLastReset]
      | succ k2 => simp [patchLastReset]
    | cons q rest2 =>
      intro k
      have hstep : patchLastReset (p :: q :: rest2) =
          p :: patchLastReset (q :: rest2) := rfl
      rw [hstep]
      cases k with
      | zero =>
        rw [List.getD_cons_zero, List.getD_cons_zero,
          if_neg (by rw [List.length_cons, List.length_cons]; omega)]
      | succ k2 =>
        rw [List.getD_cons_succ, List.getD_cons_succ, ih k2]
        by_cases hcase : k2 + 1 = (q :: rest2).length
        · rw [if_pos hcase, if_pos (by rw [List.length_cons, ← hcase])]
        · rw [if_neg hcase, if_neg (by rw [List.length_cons]; omega)]

theorem patchLastReset_mem :
    ∀ (l : List (VideoWorkItem × Interval)) (p : VideoWorkItem × Interval),
      p ∈ patchLastReset l → ∃ q ∈ l, p = q ∨ p = markReset q := by
  intro l
  induction l with
  | nil => intro p hp; simp [patchLastReset] at hp
  | cons x rest ih =>
    cases rest with
    | nil =>
      intro p hp
      have hp2 : p = markReset x := by simpa [patchLastReset] using hp
      exact ⟨x, List.mem_cons_self _ _, Or.inr hp2⟩
    | cons q rest2 =>
      intro p hp
      have hstep : patchLastReset (x :: q :: rest2) =
          x :: patchLastReset (q :: rest2) := rfl
      rw [hstep] at hp
      rcases List.mem_cons.mp hp with hp2 | hp2
      · exact ⟨x, List.mem_cons_self _ _, Or.inl hp2⟩
      · obtain ⟨r, hr1, hr2⟩ := ih p hp2
        exact ⟨r, List.mem_cons_of_mem _ hr1, hr2⟩

theorem group_length_iff (W : Nat) (vi : Int) (ivs0 len t k : Nat)
    (hW : 0 < W) :
    k < (patchLastReset (planChunksGo W vi ivs0 len t 0 len)).length ↔
      k * W < len := by
  rw [patchLastReset_length]
  exact planChunksGo_length_iff W vi ivs0 hW len t 0 len k (le_refl len)

theorem group_getD_mid (W : Nat) (vi : Int) (ivs0 len t k : Nat)
    (hW : 0 < W) (hk1 : (k + 1) * W < len) :
    (patchLastReset (planChunksGo W vi ivs0 len t 0 len)).getD k
      dummyPlanEntry =
      (VideoWorkItem.mk vi ((t + k * W : Nat) : Int)
        ((t + k * W + min W (len - k * W) : Nat) : Int)
        ((k * W : Nat) : Int),
       Interval.mk ((ivs0 + k * W : Nat) : Int)
        ((ivs0 + k * W + min W (len - k * W) : Nat) : Int)) := by
  have hmul : (k + 1) * W = k * W + W := by ring
  have hk : k * W < len := by omega
  have hlt : k + 1 < (planChunksGo W vi ivs0 len t 0 len).length :=
    (planChunksGo_length_iff W vi ivs0 hW len t 0 len (k + 1)
      (le_refl len)).mpr hk1
  rw [patchLastReset_getD, if_neg (by omega),
    planChunksGo_getD W vi ivs0 hW len t 0 len k (le_refl len) hk]
  simp

theorem group_getD_last (W : Nat) (vi : Int) (ivs0 len t k : Nat)
    (hW : 0 < W) (hk : k * W < len) (hk1 : len ≤ (k + 1) * W) :
    (patchLastReset (planChunksGo W vi ivs0 len t 0 len)).getD k
      dummyPlanEntry =
      markReset (VideoWorkItem.mk vi ((t + k * W : Nat) : Int)
        ((t + k * W + min W (len - k * W) : Nat) : Int)
        ((k * W : Nat) : Int),
       Interval.mk ((ivs0 + k * W : Nat) : Int)
        ((ivs0 + k * W + min W (len - k * W) : Nat) : Int)) := by
  have hmul : (k + 1) * W = k * W + W := by ring
  have hlt : k < (planChunksGo W vi ivs0 len t 0 len).length :=
    (planChunksGo_length_iff W vi ivs0 hW len t 0 len k (le_refl len)).mpr hk
  have hnlt : ¬(k + 1 < (planChunksGo W vi ivs0 len t 0 len).length) := by
    intro hcon
    have := (planChunksGo_length_iff W vi ivs0 hW len t 0 len (k + 1)
      (le_refl len)).mp hcon
    omega
  rw [patchLastReset_getD, if_pos (by omega),
    planChunksGo_getD W vi ivs0 hW len t 0 len k (le_refl len) hk]
  simp [markReset]

theorem planChunksGo_mem_size (W : Nat) (vi : Int) (ivs0 : Nat)
    (hW : 0 < W) :
    ∀ (fuel t alloc rem : Nat), rem ≤ fuel →
      ∀ p ∈ planChunksGo W vi ivs0 fuel t alloc rem,
        0 < p.2.stop - p.2.start ∧ p.2.stop - p.2.start ≤ (W : Int) := by
  intro fuel
  induction fuel with
  | zero =>
    intro t alloc rem hrem p hp
    simp [planChunksGo] at hp
  | succ f ih =>
    intro t alloc rem hrem p hp
    by_cases hg : 0 < rem
    · rw [planChunksGo, if_pos ⟨hg, hW⟩] at hp
      rcases List.mem_cons.mp hp with hp2 | hp2
      · rw [hp2]
        have hc : 0 < min W rem := by omega
        constructor
        · show (0 : Int) <
            ((ivs0 + alloc + min W rem : Nat) : Int) -
            ((ivs0 + alloc : Nat) : Int)
          push_cast
          omega
        · show ((ivs0 + alloc + min W rem : Nat) : Int) -
            ((ivs0 + alloc : Nat) : Int) ≤ (W : Int)
          push_cast
          omega
      · exact ih (t + min W rem) (alloc + min W rem) (rem - min W rem)
          (by omega) p hp2
    · rw [planChunksGo, if_neg (by omega)] at hp
      simp at hp

theorem planChunksGo_mem_item (W : Nat) (vi : Int) (ivs0 : Nat) :
    ∀ (fuel t alloc rem : Nat),
      ∀ p ∈ planChunksGo W vi ivs0 fuel t alloc rem,
        0 ≤ p.1.item_id := by
  intro fuel
  induction fuel with
  | zero =>
    intro t alloc rem p hp
    simp [planChunksGo] at hp
  | succ f ih =>
    intro t alloc rem p hp
    by_cases hg : 0 < rem ∧ 0 < W
    · rw [planChunksGo, if_pos hg] at hp
      rcases List.mem_cons.mp hp with hp2 | hp2
      · rw [hp2]
        show (0 : Int) ≤ ((t : Nat) : Int)
        omega
      · exact ih (t + min W rem) (alloc + min W rem) (rem - min W rem) p hp2
    · rw [planChunksGo, if_neg hg] at hp
      simp at hp

theorem planSeqGather_mem_size (W : Nat) (vi : Int) (hW : 0 < W) :
    ∀ (ivs : List Interval) (t : Nat),
      ∀ p ∈ planSeqGather W vi t ivs,
        0 < p.2.stop - p.2.start ∧ p.2.stop - p.2.start ≤ (W : Int) := by
  intro ivs
  induction ivs with
  | nil =>
    intro t p hp
    simp [planSeqGather] at hp
  | cons iv rest ih =>
    intro t p hp
    rw [planSeqGather] at hp
    rcases List.mem_append.mp hp with hp2 | hp2
    · obtain ⟨q, hq, hpq⟩ := patchLastReset_mem _ p hp2
      have hqsize := planChunksGo_mem_size W vi iv.start.toNat hW
        (iv.stop - iv.start).toNat t 0 (iv.stop - iv.start).toNat
        (le_refl _) q hq
      rcases hpq with h | h
      · rw [h]; exact hqsize
      · rw [h]; exact hqsize
    · exact ih (t + (iv.stop - iv.start).toNat) p hp2

theorem planSeqGather_mem_item (W : Nat) (vi : Int) :
    ∀ (ivs : List Interval) (t : Nat),
      ∀ p ∈ planSeqGather W vi t ivs, 0 ≤ p.1.item_id := by
  intro ivs
  induction ivs with
  | nil =>
    intro t p hp
    simp [planSeqGather] at hp
  | cons iv rest ih =>
    intro t p hp
    rw [planSeqGather] at hp
    rcases List.mem_append.mp hp with hp2 | hp2
    · obtain ⟨q, hq, hpq⟩ := patchLastReset_mem _ p hp2
      have hqitem := planChunksGo_mem_item W vi iv.start.toNat
        (iv.stop - iv.start).toNat t 0 (iv.stop - iv.start).toNat q hq
      rcases hpq with h | h
      · rw [h]; exact hqitem
      · rw [h]; exact hqitem
    · exact ih (t + (iv.stop - iv.start).toNat) p hp2

theorem planSeqGather_head_rows (W : Nat) (vi : Int) (hW : 0 < W) :
    ∀ (ivs : List Interval) (t : Nat),
      0 < (planSeqGather W vi t ivs).length →
      ((planSeqGather W vi t ivs).getD 0 dummyPlanEntry).1.rows_from_start
        = 0 := by
  intro ivs
  induction ivs with
  | nil =>
    intro t h
    simp [planSeqGather] at h
  | cons iv rest ih =>
    intro t h
    rw [planSeqGather] at h ⊢
    by_cases hlen : 0 < (iv.stop - iv.start).toNat
    · have hltG : 0 < (patchLastReset (planChunksGo W vi iv.start.toNat
          (iv.stop - iv.start).toNat t 0 (iv.stop - iv.start).toNat)).length :=
        (group_length_iff W vi iv.start.toNat (iv.stop - iv.start).toNat t 0
          hW).mpr (by omega)
      rw [List.getD_append _ _ _ 0 hltG]
      by_cases hmid : (0 + 1) * W < (iv.stop - iv.start).toNat
      · rw [group_getD_mid W vi iv.start.toNat (iv.stop - iv.start).toNat t 0
          hW hmid]
        simp
      · rw [group_getD_last W vi iv.start.toNat (iv.stop - iv.start).toNat t 0
          hW (by omega) (by omega)]
        simp [markReset]
    · have hlen0 : (iv.stop - iv.start).toNat = 0 := by omega
      rw [hlen0] at h ⊢
      have hnil : planChunksGo W vi iv.start.toNat 0 t 0 0 = [] := rfl
      rw [hnil] at h ⊢
      simp only [patchLastReset, List.nil_append] at h ⊢
      exact ih (t + 0) h

theorem planSeqGather_head_item (W : Nat) (vi : Int) (hW : 0 < W) :
    ∀ (ivs : List Interval) (t : Nat),
      0 < (planSeqGather W vi t ivs).length →
      ((planSeqGather W vi t ivs).getD 0 dummyPlanEntry).1.item_id
        = (t : Int) := by
  intro ivs
  induction ivs with
  | nil =>
    intro t h
    simp [planSeqGather] at h
  | cons iv rest ih =>
    intro t h
    rw [planSeqGather] at h ⊢
    by_cases hlen : 0 < (iv.stop - iv.start).toNat
    · have hltG : 0 < (patchLastReset (planChunksGo W vi iv.start.toNat
          (iv.stop - iv.start).toNat t 0 (iv.stop - iv.start).toNat)).length :=
        (group_length_iff W vi iv.start.toNat (iv.stop - iv.start).toNat t 0
          hW).mpr (by omega)
      rw [List.getD_append _ _ _ 0 hltG]
      by_cases hmid : (0 + 1) * W < (iv.stop - iv.start).toNat
      · rw [group_getD_mid W vi iv.start.toNat (iv.stop - iv.start).toNat t 0
          hW hmid]
        simp
      · rw [group_getD_last W vi iv.start.toNat (iv.stop - iv.start).toNat t 0
          hW (by omega) (by omega)]
        simp [markReset]
    · have hlen0 : (iv.stop - iv.start).toNat = 0 := by omega
      rw [hlen0] at h ⊢
      have hnil : planChunksGo W vi iv.start.toNat 0 t 0 0 = [] := rfl
      rw [hnil] at h ⊢
      simp only [patchLastReset, List.nil_append] at h ⊢
      rw [ih (t + 0) h]
      simp

theorem planSeqGather_boundary (W : Nat) (vi : Int) (hW : 0 < W) :
    ∀ (ivs : List Interval) (t k : Nat),
      k < (planSeqGather W vi t ivs).length →
      (((planSeqGather W vi t ivs).getD k dummyPlanEntry).1.next_item_id
          = -1 ↔
        (k + 1 = (planSeqGather W vi t ivs).length ∨
          (k + 1 < (planSeqGather W vi t ivs).length ∧
            ((planSeqGather W vi t ivs).getD (k + 1)
              dummyPlanEntry).1.rows_from_start = 0))) := by
  intro ivs
  induction ivs with
  | nil =>
    intro t k hk
    simp [planSeqGather] at hk
  | cons iv rest ih =>
    intro t k hk
    rw [planSeqGather] at hk ⊢
    by_cases hkG : k < (patchLastReset (planChunksGo W vi iv.start.toNat
        (iv.stop - iv.start).toNat t 0 (iv.stop - iv.start).toNat)).length
    · have hkW : k * W < (iv.stop - iv.start).toNat :=
        (group_length_iff W vi iv.start.toNat (iv.stop - iv.start).toNat t k
          hW).mp hkG
      have hmul : (k + 1) * W = k * W + W := by ring
      have hmul2 : (k + 2) * W = k * W + W + W := by ring
      rw [List.getD_append _ _ _ k hkG]
      by_cases hmid : (k + 1) * W < (iv.stop - iv.start).toNat
      · have hk1G : k + 1 < (patchLastReset (planChunksGo W vi iv.start.toNat
            (iv.stop - iv.start).toNat t 0
            (iv.stop - iv.start).toNat)).length :=
          (group_length_iff W vi iv.start.toNat (iv.stop - iv.start).toNat t
            (k + 1) hW).mpr hmid
        rw [group_getD_mid W vi iv.start.toNat (iv.stop - iv.start).toNat t k
          hW hmid]
        constructor
        · intro hcon
          exfalso
          have hcon2 : ((t + k * W +
              min W ((iv.stop - iv.start).toNat - k * W) : Nat) : Int) =
              -1 := hcon
          omega
        · intro hcon
          exfalso
          rcases hcon with hcon | hcon
          · rw [List.length_append] at hcon
            omega
          · obtain ⟨h1, h2⟩ := hcon
            rw [List.getD_append _ _ _ (k + 1) hk1G] at h2
            have hmul2b : (k + 1 + 1) * W = k * W + W + W := by ring
            by_cases hmid2 : (k + 1 + 1) * W < (iv.stop - iv.start).toNat
            · rw [group_getD_mid W vi iv.start.toNat
                (iv.stop - iv.start).toNat t (k + 1) hW hmid2] at h2
              have h2b : (((k + 1) * W : Nat) : Int) = 0 := h2
              omega
            · rw [group_getD_last W vi iv.start.toNat
                (iv.stop - iv.start).toNat t (k + 1) hW hmid (by omega)] at h2
              have h2b : (((k + 1) * W : Nat) : Int) = 0 := h2
              omega
      · rw [group_getD_last W vi iv.start.toNat (iv.stop - iv.start).toNat t k
          hW hkW (by omega)]
        refine ⟨fun _ => ?_, fun _ => rfl⟩
        have hk1G : k + 1 = (patchLastReset (planChunksGo W vi iv.start.toNat
            (iv.stop - iv.start).toNat t 0
            (iv.stop - iv.start).toNat)).length := by
          have hn : ¬(k + 1 < (patchLastReset (planChunksGo W vi
              iv.start.toNat (iv.stop - iv.start).toNat t 0
              (iv.stop - iv.start).toNat)).length) := by
            intro hcon
            have := (group_length_iff W vi iv.start.toNat
              (iv.stop - iv.start).toNat t (k + 1) hW).mp hcon
            omega
          omega
        by_cases hP2 : 0 < (planSeqGather W vi
            (t + (iv.stop - iv.start).toNat) rest).length
        · right
          constructor
          · rw [List.length_append]
            omega
          · rw [List.getD_append_right _ _ _ (k + 1) (by omega),
              show k + 1 - (patchLastReset (planChunksGo W vi iv.start.toNat
                (iv.stop - iv.start).toNat t 0
                (iv.stop - iv.start).toNat)).length = 0 from by omega]
            exact planSeqGather_head_rows W vi hW rest
              (t + (iv.stop - iv.start).toNat) hP2
        · left
          rw [List.length_append]
          omega
    · push_neg at hkG
      have hk2 : k - (patchLastReset (planChunksGo W vi iv.start.toNat
          (iv.stop - iv.start).toNat t 0
          (iv.stop - iv.start).toNat)).length <
          (planSeqGather W vi (t + (iv.stop - iv.start).toNat) rest).length :=
        by
        rw [List.length_append] at hk
        omega
      rw [List.getD_append_right _ _ _ k hkG,
        List.getD_append_right _ _ _ (k + 1) (by omega),
        show k + 1 - (patchLastReset (planChunksGo W vi iv.start.toNat
          (iv.stop - iv.start).toNat t 0
          (iv.stop - iv.start).toNat)).length =
          (k - (patchLastReset (planChunksGo W vi iv.start.toNat
            (iv.stop - iv.start).toNat t 0
            (iv.stop - iv.start).toNat)).length) + 1 from by omega,
        List.length_append]
      have hih := ih (t + (iv.stop - iv.start).toNat)
        (k - (patchLastReset (planChunksGo W vi iv.start.toNat
          (iv.stop - iv.start).toNat t 0
          (iv.stop - iv.start).toNat)).length) hk2
      rw [show (k + 1 = (patchLastReset (planChunksGo W vi iv.start.toNat
          (iv.stop - iv.start).toNat t 0
          (iv.stop - iv.start).toNat)).length +
          (planSeqGather W vi (t + (iv.stop - iv.start).toNat) rest).length)
          ↔ ((k - (patchLastReset (planChunksGo W vi iv.start.toNat
            (iv.stop - iv.start).toNat t 0
            (iv.stop - iv.start).toNat)).length) + 1 =
            (planSeqGather W vi (t + (iv.stop - iv.start).toNat)
              rest).length) from by omega,
        show (k + 1 < (patchLastReset (planChunksGo W vi iv.start.toNat
          (iv.stop - iv.start).toNat t 0
          (iv.stop - iv.start).toNat)).length +
          (planSeqGather W vi (t + (iv.stop - iv.start).toNat) rest).length)
          ↔ ((k - (patchLastReset (planChunksGo W vi iv.start.toNat
            (iv.stop - iv.start).toNat t 0
            (iv.stop - iv.start).toNat)).length) + 1 <
            (planSeqGather W vi (t + (iv.stop - iv.start).toNat)
              rest).length) from by omega]
      exact hih

theorem planSeqGather_item_rec (W : Nat) (vi : Int) (hW : 0 < W) :
    ∀ (ivs : List Interval) (t k : Nat),
      k + 1 < (planSeqGather W vi t ivs).length →
      ((planSeqGather W vi t ivs).getD (k + 1) dummyPlanEntry).1.item_id =
        ((planSeqGather W vi t ivs).getD k dummyPlanEntry).1.item_id +
        (((planSeqGather W vi t ivs).getD k dummyPlanEntry).2.stop -
          ((planSeqGather W vi t ivs).getD k dummyPlanEntry).2.start) := by
  intro ivs
  induction ivs with
  | nil =>
    intro t k hk
    simp [planSeqGather] at hk
  | cons iv rest ih =>
    intro t k hk
    rw [planSeqGather] at hk ⊢
    have hmul : (k + 1) * W = k * W + W := by ring
    have hmul2 : (k + 1 + 1) * W = k * W + W + W := by ring
    by_cases hk1G : k + 1 < (patchLastReset (planChunksGo W vi
        iv.start.toNat (iv.stop - iv.start).toNat t 0
        (iv.stop - iv.start).toNat)).length
    · have hkG : k < (patchLastReset (planChunksGo W vi iv.start.toNat
          (iv.stop - iv.start).toNat t 0
          (iv.stop - iv.start).toNat)).length := by omega
      have hk1W : (k + 1) * W < (iv.stop - iv.start).toNat :=
        (group_length_iff W vi iv.start.toNat (iv.stop - iv.start).toNat t
          (k + 1) hW).mp hk1G
      rw [List.getD_append _ _ _ k hkG, List.getD_append _ _ _ (k + 1) hk1G,
        group_getD_mid W vi iv.start.toNat (iv.stop - iv.start).toNat t k
          hW hk1W]
      by_cases hmid2 : (k + 1 + 1) * W < (iv.stop - iv.start).toNat
      · rw [group_getD_mid W vi iv.start.toNat (iv.stop - iv.start).toNat t
          (k + 1) hW hmid2]
        show ((t + (k + 1) * W : Nat) : Int) =
          ((t + k * W : Nat) : Int) +
          (((iv.start.toNat + k * W +
            min W ((iv.stop - iv.start).toNat - k * W) : Nat) : Int) -
           ((iv.start.toNat + k * W : Nat) : Int))
        omega
      · rw [group_getD_last W vi iv.start.toNat (iv.stop - iv.start).toNat t
          (k + 1) hW hk1W (by omega)]
        show ((t + (k + 1) * W : Nat) : Int) =
          ((t + k * W : Nat) : Int) +
          (((iv.start.toNat + k * W +
            min W ((iv.stop - iv.start).toNat - k * W) : Nat) : Int) -
           ((iv.start.toNat + k * W : Nat) : Int))
        omega
    · by_cases hkG : k < (patchLastReset (planChunksGo W vi iv.start.toNat
          (iv.stop - iv.start).toNat t 0
          (iv.stop - iv.start).toNat)).length
      · have hkW : k * W < (iv.stop - iv.start).toNat :=
          (group_length_iff W vi iv.start.toNat (iv.stop - iv.start).toNat t
            k hW).mp hkG
        have hlast : ¬((k + 1) * W < (iv.stop - iv.start).toNat) := by
          intro hcon
          exact hk1G ((group_length_iff W vi iv.start.toNat
            (iv.stop - iv.start).toNat t (k + 1) hW).mpr hcon)
        have hP2 : 0 < (planSeqGather W vi
            (t + (iv.stop - iv.start).toNat) rest).length := by
          rw [List.length_append] at hk
          omega
        rw [List.getD_append _ _ _ k hkG,
          List.getD_append_right _ _ _ (k + 1) (by omega),
          show k + 1 - (patchLastReset (planChunksGo W vi iv.start.toNat
            (iv.stop - iv.start).toNat t 0
            (iv.stop - iv.start).toNat)).length = 0 from by omega,
          planSeqGather_head_item W vi hW rest
            (t + (iv.stop - iv.start).toNat) hP2,
          group_getD_last W vi iv.start.toNat (iv.stop - iv.start).toNat t k
            hW hkW (by omega)]
        show ((t + (iv.stop - iv.start).toNat : Nat) : Int) =
          ((t + k * W : Nat) : Int) +
          (((iv.start.toNat + k * W +
            min W ((iv.stop - iv.start).toNat - k * W) : Nat) : Int) -
           ((iv.start.toNat + k * W : Nat) : Int))
        omega
      · push_neg at hkG
        have hk2 : (k - (patchLastReset (planChunksGo W vi iv.start.toNat
            (iv.stop - iv.start).toNat t 0
            (iv.stop - iv.start).toNat)).length) + 1 <
            (planSeqGather W vi (t + (iv.stop - iv.start).toNat)
              rest).length := by
          rw [List.length_append] at hk
          omega
        rw [List.getD_append_right _ _ _ k hkG,
          List.getD_append_right _ _ _ (k + 1) (by omega),
          show k + 1 - (patchLastReset (planChunksGo W vi iv.start.toNat
            (iv.stop - iv.start).toNat t 0
            (iv.stop - iv.start).toNat)).length =
            (k - (patchLastReset (planChunksGo W vi iv.start.toNat
              (iv.stop - iv.start).toNat t 0
              (iv.stop - iv.start).toNat)).length) + 1 from by omega]
        exact ih (t + (iv.stop - iv.start).toNat)
          (k - (patchLastReset (planChunksGo W vi iv.start.toNat
            (iv.stop - iv.start).toNat t 0
            (iv.stop - iv.start).toNat)).length) hk2

/-- C5: for SequenceGather sampling over one video, (i) every planned
load interval is a chunk of at least 1 and at most W frames; (ii) a
work item carries next_item_id = -1 exactly when it is the last item of
one of the per-video intervals, that is, when it is the last item
overall or the following item restarts rows_from_start at 0; (iii) the
first item's item_id is the running output-row count t and each later
item's item_id exceeds its predecessor's by the predecessor's chunk
size, so item_id counts output rows across the whole per-video
sequence; and (iv) whenever an item carries next_item_id = -1, the
evaluator chain worker's reset decision on the following item is
positive, so a reset is performed at the boundary of every per-video
interval. -/
theorem planSeqGather_spec (W : Nat) (vi : Int) (ivs : List Interval)
    (t : Nat) (hW : 0 < W) :
    (∀ p ∈ planSeqGather W vi t ivs,
      0 < p.2.stop - p.2.start ∧ p.2.stop - p.2.start ≤ (W : Int)) ∧
    (∀ k, k < (planSeqGather W vi t ivs).length →
      (((planSeqGather W vi t ivs).getD k dummyPlanEntry).1.next_item_id
          = -1 ↔
        (k + 1 = (planSeqGather W vi t ivs).length ∨
          (k + 1 < (planSeqGather W vi t ivs).length ∧
            ((planSeqGather W vi t ivs).getD (k + 1)
              dummyPlanEntry).1.rows_from_start = 0)))) ∧
    (0 < (planSeqGather W vi t ivs).length →
      ((planSeqGather W vi t ivs).getD 0 dummyPlanEntry).1.item_id
        = (t : Int)) ∧
    (∀ k, k + 1 < (planSeqGather W vi t ivs).length →
      ((planSeqGather W vi t ivs).getD (k + 1) dummyPlanEntry).1.item_id =
        ((planSeqGather W vi t ivs).getD k dummyPlanEntry).1.item_id +
        (((planSeqGather W vi t ivs).getD k dummyPlanEntry).2.stop -
          ((planSeqGather W vi t ivs).getD k dummyPlanEntry).2.start)) ∧
    (∀ k, k + 1 < (planSeqGather W vi t ivs).length →
      ((planSeqGather W vi t ivs).getD k dummyPlanEntry).1.next_item_id
        = -1 →
      (stepConfigureReset
        (EvalState.mk
          ((planSeqGather W vi t ivs).getD k
            dummyPlanEntry).1.video_index
          ((planSeqGather W vi t ivs).getD k
            dummyPlanEntry).1.next_item_id)
        ((planSeqGather W vi t ivs).getD (k + 1)
          dummyPlanEntry).1).2.1 = true) := by
  refine ⟨planSeqGather_mem_size W vi hW ivs t,
    planSeqGather_boundary W vi hW ivs t,
    planSeqGather_head_item W vi hW ivs t,
    planSeqGather_item_rec W vi hW ivs t, ?_⟩
  intro k hk hnext
  have hk1 : k + 1 < (planSeqGather W vi t ivs).length := hk
  have hmem : (planSeqGather W vi t ivs).getD (k + 1) dummyPlanEntry ∈
      planSeqGather W vi t ivs := by
    rw [List.getD_eq_getElem _ _ hk1]
    exact List.getElem_mem hk1
  have hnn := planSeqGather_mem_item W vi ivs t _ hmem
  have hne : ((planSeqGather W vi t ivs).getD (k + 1)
      dummyPlanEntry).1.item_id ≠ -1 := by omega
  have hne2 : (((planSeqGather W vi t ivs).getD (k + 1)
      dummyPlanEntry).1.item_id == (-1 : Int)) = false :=
    beq_eq_false_iff_ne.mpr hne
  rw [hnext]
  show (!(((planSeqGather W vi t ivs).getD (k + 1)
      dummyPlanEntry).1.video_index ==
      ((planSeqGather W vi t ivs).getD k dummyPlanEntry).1.video_index &&
      ((planSeqGather W vi t ivs).getD (k + 1)
      dummyPlanEntry).1.item_id == (-1 : Int))) = true
  rw [hne2, Bool.and_false]
  rfl

/-- Witness for C5: the S4 scenario, intervals [0, 10) and [50, 60) of
one video with W = 10 and the running row counter starting at 0. -/
theorem planSeqGather_spec_witness :
    (∀ p ∈ planSeqGather 10 0 0 [Interval.mk 0 10, Interval.mk 50 60],
      0 < p.2.stop - p.2.start ∧ p.2.stop - p.2.start ≤ ((10 : Nat) : Int)) ∧
    (∀ k, k < (planSeqGather 10 0 0
        [Interval.mk 0 10, Interval.mk 50 60]).length →
      (((planSeqGather 10 0 0 [Interval.mk 0 10, Interval.mk 50 60]).getD k
          dummyPlanEntry).1.next_item_id = -1 ↔
        (k + 1 = (planSeqGather 10 0 0
            [Interval.mk 0 10, Interval.mk 50 60]).length ∨
          (k + 1 < (planSeqGather 10 0 0
              [Interval.mk 0 10, Interval.mk 50 60]).length ∧
            ((planSeqGather 10 0 0
              [Interval.mk 0 10, Interval.mk 50 60]).getD (k + 1)
              dummyPlanEntry).1.rows_from_start = 0)))) ∧
    (0 < (planSeqGather 10 0 0
        [Interval.mk 0 10, Interval.mk 50 60]).length →
      ((planSeqGather 10 0 0 [Interval.mk 0 10, Interval.mk 50 60]).getD 0
        dummyPlanEntry).1.item_id = ((0 : Nat) : Int)) ∧
    (∀ k, k + 1 < (planSeqGather 10 0 0
        [Interval.mk 0 10, Interval.mk 50 60]).length →
      ((planSeqGather 10 0 0 [Interval.mk 0 10, Interval.mk 50 60]).getD
          (k + 1) dummyPlanEntry).1.item_id =
        ((planSeqGather 10 0 0 [Interval.mk 0 10, Interval.mk 50 60]).getD k
          dummyPlanEntry).1.item_id +
        (((planSeqGather 10 0 0 [Interval.mk 0 10, Interval.mk 50 60]).getD k
          dummyPlanEntry).2.stop -
          ((planSeqGather 10 0 0
            [Interval.mk 0 10, Interval.mk 50 60]).getD k
            dummyPlanEntry).2.start)) ∧
    (∀ k, k + 1 < (planSeqGather 10 0 0
        [Interval.mk 0 10, Interval.mk 50 60]).length →
      ((planSeqGather 10 0 0 [Interval.mk 0 10, Interval.mk 50 60]).getD k
        dummyPlanEntry).1.next_item_id = -1 →
      (stepConfigureReset
        (EvalState.mk
          ((planSeqGather 10 0 0
            [Interval.mk 0 10, Interval.mk 50 60]).getD k
            dummyPlanEntry).1.video_index
          ((planSeqGather 10 0 0
            [Interval.mk 0 10, Interval.mk 50 60]).getD k
            dummyPlanEntry).1.next_item_id)
        ((planSeqGather 10 0 0 [Interval.mk 0 10, Interval.mk 50 60]).getD
          (k + 1) dummyPlanEntry).1).2.1 = true) :=
  planSeqGather_spec 10 0 [Interval.mk 0 10, Interval.mk 50 60] 0
    (by decide)

end Scanner
